import Mathlib

/-!
# Verification of `run_simulation_all.py`

A shallow embedding of the test-harness driver `src/run_simulation_all.py`:
the module runner (`ModuleTest.run_test`), the configuration runner
(`ConfigurationTest.run`), the suite runner (`TestSuite.run`), the dashboard
heat-map cell rendering (`TestSuite._generate_dashboard`), the
"latest_results" symlink maintenance, and the command-line validation in
`main` / `parse_arguments`.

External effects (subprocess invocations, wall-clock readings, log-file
contents) are modelled as explicit inputs: each external module invocation is
described by a `ModuleEnv` record giving the compiler's exit code, the
simulator's exit code, the combined log-file content observed after both
steps, and the measured wall-clock duration.  The filesystem state relevant
to the symlink alias is modelled by an explicit `FS` record.
-/

namespace RtlPipe

/-- Module statuses assigned by `ModuleTest`: `"UNKNOWN"` at construction,
then one of `"PASSED"`, `"FAILED"`, `"COMPILE FAILED"` set by `run_test`. -/
inductive Status where
  | PASSED
  | FAILED
  | COMPILE_FAILED
  | UNKNOWN
deriving DecidableEq, Repr

/-- `isPrefixList pat s` is true when the char list `pat` is an initial
segment of `s` (helper for the Python substring operator). -/
def isPrefixList : List Char → List Char → Bool
  | [], _ => true
  | _ :: _, [] => false
  | p :: ps, c :: cs => p = c && isPrefixList ps cs

/-- `containsSub pat s`: the char list `pat` occurs contiguously in `s`;
this is Python's `pat in s` on strings. -/
def containsSub : List Char → List Char → Bool
  | pat, [] => pat.isEmpty
  | pat, c :: cs => isPrefixList pat (c :: cs) || containsSub pat cs

/-- Python's `sub in s` for strings. -/
def strContains (s sub : String) : Bool :=
  containsSub sub.data s.data

/-- The literal marker whose presence in the combined log classifies a
module run as passed (`"TEST PASSED" in log_content`). -/
def markerText : String := "TEST PASSED"

/-- What `ModuleTest.run_test` produces: the final `status` field, the
boolean return value (`success`), whether the simulation step (step 2) was
attempted at all, and the recorded `duration`. -/
structure ModuleOutcome where
  status : Status
  success : Bool
  execAttempted : Bool
  duration : ℚ
deriving DecidableEq, Repr

/-- Shallow embedding of `ModuleTest.run_test`.  Inputs are the observed
behaviour of the two external processes: `compileRc` is the Verilator exit
code, `simRc` the simulator exit code (captured but never consulted by the
source), `logContent` the combined log-file content read back after both
steps, and the three wall-clock readings `t0` (just before compilation,
`start_time`), `t1` (at the early `COMPILE FAILED` return point) and `t2`
(after the simulation step, before the log is read). -/
def run_test (compileRc : Int) (simRc : Int) (logContent : String)
    (t0 t1 t2 : ℚ) : ModuleOutcome :=
  if compileRc ≠ 0 then
    { status := .COMPILE_FAILED, success := false, execAttempted := false
      duration := t1 - t0 }
  else if strContains logContent markerText then
    { status := .PASSED, success := true, execAttempted := true
      duration := t2 - t0 }
  else
    { status := .FAILED, success := false, execAttempted := true
      duration := t2 - t0 }

/-- The externally observable behaviour of one module invocation: compiler
exit code, simulator exit code, combined log content, and the measured
wall-clock duration of the whole module run. -/
structure ModuleEnv where
  compileRc : Int
  simRc : Int
  logContent : String
  duration : ℚ
deriving DecidableEq, Repr

/-- `run_test` driven by a `ModuleEnv` (time readings collapsed so that the
recorded duration is the environment's measured duration). -/
def moduleRunEnv (e : ModuleEnv) : ModuleOutcome :=
  run_test e.compileRc e.simRc e.logContent 0 e.duration e.duration

/-! ## Output paths

The path strings built by `ModuleTest.__init__` and
`ConfigurationTest.__init__`. -/

/-- `f"{log_dir}/w{width}_p{pipe_stages}"` — the per-configuration
directory. -/
def config_dir (log_dir : String) (width pipe_stages : Int) : String :=
  log_dir ++ "/w" ++ toString width ++ "_p" ++ toString pipe_stages

/-- `f"{self.config_dir}/module_{module_id}.log"` — the per-module log
file. -/
def module_log_file (log_dir : String) (width pipe_stages : Int)
    (module_id : Nat) : String :=
  config_dir log_dir width pipe_stages ++ "/module_" ++ toString module_id ++ ".log"

/-- `f"{self.config_dir}/report.html"` — the per-configuration report. -/
def report_file (log_dir : String) (width pipe_stages : Int) : String :=
  config_dir log_dir width pipe_stages ++ "/report.html"

/-- `f"{width}_{pipe_stages}"` — the key used in
`TestSuite.config_results`. -/
def configKey (width pipe_stages : Int) : String :=
  toString width ++ "_" ++ toString pipe_stages

/-! ## `ConfigurationTest.run` -/

/-- Result of `ConfigurationTest.run`: the module ids in the order they were
run, the per-module outcomes in that same order, the `passed` and `failed`
counters, the configuration duration, and the number of external process
invocations made (one for a compile-failed module, two otherwise). -/
structure ConfigRunResult where
  moduleIds : List Nat
  outcomes : List ModuleOutcome
  passed : Nat
  failed : Nat
  duration : ℚ
  invocations : Nat
deriving DecidableEq, Repr

/-- Shallow embedding of `ConfigurationTest.run`: `for module_id in
range(1, total_modules + 1)` constructs a `ModuleTest` and runs it,
incrementing `passed` on a true return and `failed` otherwise.  The i-th
module run (0-based) consumes the behaviour `env (start + i)` of the external
toolchain, where `start` is the global invocation index at which this
configuration begins; the configuration duration is abstracted as the sum of
the measured per-module durations. -/
def config_run (total_modules : Nat) (env : Nat → ModuleEnv)
    (start : Nat) : ConfigRunResult :=
  let outs := (List.range total_modules).map (fun i => moduleRunEnv (env (start + i)))
  { moduleIds := List.range' 1 total_modules
    outcomes := outs
    passed := (outs.filter (fun o => o.success)).length
    failed := (outs.filter (fun o => ! o.success)).length
    duration := (outs.map (fun o => o.duration)).sum
    invocations := (outs.map (fun o => if o.execAttempted then 2 else 1)).sum }

/-! ## `TestSuite.run` -/

/-- One value of the `config_results` dict:
`{"width": ..., "pipe_stages": ..., "passed": ..., "failed": ...,
"duration": ...}`. -/
structure ConfigEntry where
  width : Int
  pipe_stages : Int
  passed : Nat
  failed : Nat
  duration : ℚ
deriving DecidableEq, Repr

/-- Python dict lookup on an insertion-ordered association list. -/
def dictGet (d : List (String × ConfigEntry)) (k : String) : Option ConfigEntry :=
  match d with
  | [] => none
  | kv :: rest => if kv.1 = k then some kv.2 else dictGet rest k

/-- Python dict assignment `d[k] = v` on an insertion-ordered association
list: replace in place when the key is present, append otherwise. -/
def dictSet (d : List (String × ConfigEntry)) (k : String) (v : ConfigEntry) :
    List (String × ConfigEntry) :=
  match d with
  | [] => [(k, v)]
  | kv :: rest => if kv.1 = k then (k, v) :: rest else kv :: dictSet rest k v

/-- The (width, pipe_stages) pairs in the order the nested loops of
`TestSuite.run` visit them: outer loop over `widths`, inner loop over
`pipe_stages`, both in input order, duplicates kept. -/
def pairsList (widths pipe_stages : List Int) : List (Int × Int) :=
  widths.flatMap (fun w => pipe_stages.map (fun p => (w, p)))

/-- The observable result of `TestSuite.run`: the configurations in
execution order, the full (width, pipe_stages, module_id) execution trace,
the per-iteration `config_results` assignments in execution order, the final
`config_results` dict, the four running totals, and the total number of
external process invocations. -/
structure SuiteResult where
  pairsTrace : List (Int × Int)
  moduleTrace : List (Int × Int × Nat)
  iterEntries : List (String × ConfigEntry)
  config_results : List (String × ConfigEntry)
  total_tests : Nat
  total_passed : Nat
  total_failed : Nat
  total_duration : ℚ
  invocations : Nat
deriving Repr

/-- Shallow embedding of `TestSuite.run`: for each (width, pipe_stages)
pair of the nested loops a `ConfigurationTest` is run, its result is stored
under the key `f"{width}_{pipe_stages}"` (overwriting any earlier entry with
the same key), `total_tests` grows by `total_modules`, and
`total_passed`/`total_failed` grow by the configuration's counters.  The
external world is threaded by global module-invocation index: the i-th
configuration (0-based) starts at index `i * total_modules`. -/
def suite_run (widths pipe_stages : List Int) (total_modules : Nat)
    (env : Nat → ModuleEnv) : SuiteResult :=
  let pairs := pairsList widths pipe_stages
  let iters := pairs.enum.map (fun iw =>
    (iw.2, config_run total_modules env (iw.1 * total_modules)))
  let entries := iters.map (fun x =>
    (configKey x.1.1 x.1.2,
      { width := x.1.1, pipe_stages := x.1.2, passed := x.2.passed
        failed := x.2.failed, duration := x.2.duration : ConfigEntry }))
  { pairsTrace := pairs
    moduleTrace := iters.flatMap (fun x =>
      x.2.moduleIds.map (fun m => (x.1.1, x.1.2, m)))
    iterEntries := entries
    config_results := entries.foldl (fun d kv => dictSet d kv.1 kv.2) []
    total_tests := (pairs.map (fun _ => total_modules)).sum
    total_passed := (iters.map (fun x => x.2.passed)).sum
    total_failed := (iters.map (fun x => x.2.failed)).sum
    total_duration := (iters.map (fun x => x.2.duration)).sum
    invocations := (iters.map (fun x => x.2.invocations)).sum }

/-! ## Dashboard heat map (`TestSuite._generate_dashboard`) -/

/-- The numeric pass rate of one heat-map cell:
`int((passed * 100) / total) if total > 0 else 0` with
`total = passed + failed`.  On naturals, Python's truncating `int` of the
quotient is floor division. -/
def heat_pass_rate (passed failed : Nat) : Nat :=
  if passed + failed > 0 then (passed * 100) / (passed + failed) else 0

/-- The text displayed in one heat-map cell of the dashboard for the pair
(width, pipe_stages): when `f"{width}_{pipe_stages}"` is a key of
`config_results` the cell shows `f"{pass_rate}%"`, otherwise the literal
`"N/A"`.  (The rgb background colour also computed there is pure styling and
not modelled.) -/
def heat_cell (config_results : List (String × ConfigEntry))
    (width pipe_stages : Int) : String :=
  match dictGet config_results (configKey width pipe_stages) with
  | some result => toString (heat_pass_rate result.passed result.failed) ++ "%"
  | none => "N/A"

/-! ## The "latest_results" alias (`TestSuite.run`, lines 282-288)

The filesystem state the alias code touches is the set of existing run
directories and the symlink itself.  `os.path.exists` follows symlinks, so a
dangling alias reads as absent (then `os.remove` is skipped and `os.symlink`
raises `FileExistsError`, caught by the `except` clause).  An environment
where symlink creation itself fails (e.g. no symlink support) is modelled by
the flag `symlinkOk`. -/

/-- Filesystem state: the existing directories and the current target of the
`latest_results` symlink (`none` when the link does not exist). -/
structure FS where
  dirs : List String
  latest : Option String
deriving DecidableEq, Repr

/-- `f"simulation_logs_{timestamp}"` — the run's output root
(`TestSuite.__init__`). -/
def logDirName (timestamp : String) : String :=
  "simulation_logs_" ++ timestamp

/-- The `try` block at the end of `TestSuite.run`:
`if os.path.exists("latest_results"): os.remove("latest_results")` then
`os.symlink(self.log_dir, "latest_results")`; any exception is caught and
reported as a warning.  Returns the new filesystem state and whether the
warning branch was taken. -/
def updateLatestLink (fs : FS) (symlinkOk : Bool) (target : String) :
    FS × Bool :=
  match fs.latest with
  | some t =>
    if t ∈ fs.dirs then
      -- exists() is true: remove the link, then try to create the new one.
      if symlinkOk then ({ fs with latest := some target }, false)
      else ({ fs with latest := none }, true)
    else
      -- dangling link: exists() is false, remove is skipped, symlink raises
      -- FileExistsError, caught by the except clause.
      (fs, true)
  | none =>
    if symlinkOk then ({ fs with latest := some target }, false)
    else (fs, true)

/-- The filesystem effect of one whole suite run with the given timestamp:
`TestSuite.__init__` creates the timestamped root (`makedirs` with
`exist_ok=True`), `TestSuite.run` finishes by updating the alias.  Returns
the new filesystem state, the run's output root, whether the alias warning
was printed, and the process exit code contributed by this code path (the
exception is swallowed, so the run always continues normally; `main` never
exits non-zero after validation). -/
def suite_fs_run (fs : FS) (symlinkOk : Bool) (timestamp : String) :
    FS × String × Bool × Nat :=
  let root := logDirName timestamp
  let fs1 : FS := { fs with dirs := if root ∈ fs.dirs then fs.dirs else root :: fs.dirs }
  let u := updateLatestLink fs1 symlinkOk root
  (u.1, root, u.2, 0)

/-! ## Command-line parsing and validation (`parse_arguments`, `main`) -/

/-- Python's `s.split(",")` on char lists: split at every comma, keeping
empty pieces; the result always has one more piece than there are commas. -/
def splitCommaAux : List Char → List Char → List (List Char)
  | [], acc => [acc.reverse]
  | c :: cs, acc =>
    if c = ',' then acc.reverse :: splitCommaAux cs [] else splitCommaAux cs (c :: acc)

/-- Python's `s.split(",")` on strings. -/
def splitOnComma (s : String) : List String :=
  (splitCommaAux s.data []).map (fun l => String.mk l)

/-- ASCII whitespace stripped by Python's `int(str)`. -/
def isSpaceChar (c : Char) : Bool :=
  c = ' ' || c = '\t' || c = '\n' || c = '\r'

/-- Numeric value of a list of decimal digit chars. -/
def digitsVal (ds : List Char) : Nat :=
  ds.foldl (fun a c => a * 10 + (c.toNat - '0'.toNat)) 0

/-- `c.isDigit` restated for the parser. -/
def isDigitChar (c : Char) : Bool :=
  '0' ≤ c && c ≤ '9'

/-- Models Python's `int(str)` as used on the comma-separated entries:
optional surrounding ASCII whitespace, an optional single sign, then a
non-empty run of decimal digits; anything else raises `ValueError`
(modelled as `none`).  Digit-group underscores and non-ASCII digits are not
modelled. -/
def pyInt (s : String) : Option Int :=
  let cs := (((s.data.dropWhile isSpaceChar).reverse.dropWhile isSpaceChar).reverse)
  match cs with
  | '-' :: ds =>
    if ds ≠ [] ∧ ds.all isDigitChar then some (-(digitsVal ds : Int)) else none
  | '+' :: ds =>
    if ds ≠ [] ∧ ds.all isDigitChar then some (digitsVal ds : Int) else none
  | ds =>
    if ds ≠ [] ∧ ds.all isDigitChar then some (digitsVal ds : Int) else none

/-- `[int(w) for w in s.split(",")]`, propagating the `ValueError` of any
entry as `none`. -/
def parseAll : List String → Option (List Int)
  | [] => some []
  | x :: xs =>
    match pyInt x, parseAll xs with
    | some v, some vs => some (v :: vs)
    | _, _ => none

/-- `parseIntList s` is `[int(w) for w in s.split(",")]`. -/
def parseIntList (s : String) : Option (List Int) :=
  parseAll (splitOnComma s)

/-- The distinct fatal diagnostics of `main`, in the order its checks appear:
the `ValueError` handler for either list, the two empty-list checks, and the
module-count check.  Each is reported with `sys.exit(1)`. -/
inductive MainError where
  | valueError
  | emptyWidths
  | emptyPipes
  | badModules
deriving DecidableEq, Repr

/-- The validation phase of `main`: parse both comma-separated lists inside
one `try` (a failure of either is the single `ValueError` diagnostic), then
reject an empty widths list, an empty pipe-stages list, and a module count
below 1, in that order. -/
def validate_args (widthsArg pipeArg : String) (modules : Int) :
    Except MainError (List Int × List Int) :=
  match parseIntList widthsArg, parseIntList pipeArg with
  | some ws, some ps =>
    if ws = [] then .error .emptyWidths
    else if ps = [] then .error .emptyPipes
    else if modules < 1 then .error .badModules
    else .ok (ws, ps)
  | _, _ => .error .valueError

/-- The whole program `main`: on validation failure exit with status 1
before anything else happens (no external process invoked, no suite state,
no output directory); on success run the suite and exit 0.  Returns the
process exit code, the number of external toolchain invocations performed,
and the suite result when one was run. -/
def main_model (widthsArg pipeArg : String) (modules : Int)
    (env : Nat → ModuleEnv) : Nat × Nat × Option SuiteResult :=
  match validate_args widthsArg pipeArg modules with
  | .error _ => (1, 0, none)
  | .ok (ws, ps) =>
    let s := suite_run ws ps modules.toNat env
    (0, s.invocations, some s)

/-! ## General lemmas -/

theorem length_filter_add_length_filter_not (l : List α) (p : α → Bool) :
    (l.filter p).length + (l.filter (fun a => ! p a)).length = l.length := by
  induction l with
  | nil => rfl
  | cons a t ih =>
    by_cases h : p a <;> simp [List.filter_cons, h, ← ih] <;> omega

theorem run_test_success_iff (c s : Int) (log : String) (t0 t1 t2 : ℚ) :
    (run_test c s log t0 t1 t2).success = true ↔
      (run_test c s log t0 t1 t2).status = Status.PASSED := by
  unfold run_test
  split <;> [skip; split] <;> simp

theorem run_test_status_ne_unknown (c s : Int) (log : String) (t0 t1 t2 : ℚ) :
    (run_test c s log t0 t1 t2).status ≠ Status.UNKNOWN := by
  unfold run_test
  split <;> [skip; split] <;> simp

theorem moduleRunEnv_success (e : ModuleEnv) :
    (moduleRunEnv e).success = decide ((moduleRunEnv e).status = Status.PASSED) := by
  unfold moduleRunEnv run_test
  split <;> [skip; split] <;> simp

theorem countP_le_countP (l : List α) (p q : α → Bool)
    (h : ∀ a ∈ l, p a = true → q a = true) :
    (l.filter p).length ≤ (l.filter q).length := by
  induction l with
  | nil => simp
  | cons a t ih =>
    have ht : ∀ b ∈ t, p b = true → q b = true := fun b hb => h b (by simp [hb])
    by_cases hp : p a
    · rw [List.filter_cons_of_pos hp, List.filter_cons_of_pos (h a (by simp) hp)]
      simpa using ih ht
    · rw [List.filter_cons_of_neg (by simpa using hp)]
      by_cases hq : q a
      · rw [List.filter_cons_of_pos hq]
        exact le_trans (ih ht) (by simp)
      · rw [List.filter_cons_of_neg (by simpa using hq)]
        exact ih ht

theorem updateLatestLink_ok (fs : FS) (target : String)
    (hlive : ∀ t, fs.latest = some t → t ∈ fs.dirs) :
    updateLatestLink fs true target = ({ fs with latest := some target }, false) := by
  unfold updateLatestLink
  cases h : fs.latest with
  | none => simp
  | some t => simp [hlive t h]

theorem updateLatestLink_fail_warns (fs : FS) (target : String) :
    (updateLatestLink fs false target).2 = true := by
  unfold updateLatestLink
  cases fs.latest with
  | none => simp
  | some t => dsimp only; split <;> simp

theorem suite_fs_run_ok (fs : FS) (t : String)
    (hlive : ∀ s, fs.latest = some s → s ∈ fs.dirs) :
    (suite_fs_run fs true t).1.latest = some (logDirName t) ∧
    (suite_fs_run fs true t).2.2.1 = false ∧
    (suite_fs_run fs true t).1.dirs =
      (if logDirName t ∈ fs.dirs then fs.dirs else logDirName t :: fs.dirs) := by
  unfold suite_fs_run
  dsimp only
  rw [updateLatestLink_ok]
  · exact ⟨rfl, rfl, rfl⟩
  · intro s hs
    have hd : s ∈ fs.dirs := hlive s hs
    show s ∈ (if logDirName t ∈ fs.dirs then fs.dirs else logDirName t :: fs.dirs)
    split <;> simp [hd]

theorem updateLatestLink_dangling (fs : FS) (ok : Bool) (target t : String)
    (ht : fs.latest = some t) (hd : t ∉ fs.dirs) :
    updateLatestLink fs ok target = (fs, true) := by
  unfold updateLatestLink
  rw [ht]
  dsimp only
  rw [if_neg hd]

theorem suite_fs_run_dangling (fs : FS) (ok : Bool) (ts t : String)
    (ht : fs.latest = some t) (hd : t ∉ fs.dirs) (hr : t ≠ logDirName ts) :
    (suite_fs_run fs ok ts).1.latest = some t ∧
    (suite_fs_run fs ok ts).2.2.1 = true := by
  unfold suite_fs_run
  dsimp only
  have hnotin : t ∉ (if logDirName ts ∈ fs.dirs then fs.dirs
      else logDirName ts :: fs.dirs) := by
    split <;> simp_all
  rw [updateLatestLink_dangling
    { dirs := if logDirName ts ∈ fs.dirs then fs.dirs else logDirName ts :: fs.dirs,
      latest := fs.latest }
    ok (logDirName ts) t ht hnotin]
  exact ⟨ht, rfl⟩

theorem logDirName_injective (t₁ t₂ : String) (h : logDirName t₁ = logDirName t₂) :
    t₁ = t₂ := by
  unfold logDirName at h
  have hd := congrArg String.data h
  rw [String.data_append, String.data_append] at hd
  have := List.append_cancel_left hd
  cases t₁; cases t₂; simp_all

theorem parseAll_eq_none_of_mem (l : List String) (e : String)
    (he : e ∈ l) (hp : pyInt e = none) : parseAll l = none := by
  induction l with
  | nil => cases he
  | cons x xs ih =>
    rcases List.mem_cons.mp he with rfl | hx
    · unfold parseAll
      rw [hp]
    · unfold parseAll
      rw [ih hx]
      cases pyInt x <;> rfl

theorem parseAll_length (l : List String) : ∀ vs : List Int,
    parseAll l = some vs → vs.length = l.length := by
  induction l with
  | nil =>
    intro vs h
    simp only [parseAll, Option.some.injEq] at h
    simp [← h]
  | cons x xs ih =>
    intro vs h
    unfold parseAll at h
    split at h
    · rename_i v ws _ hxs
      cases h
      simp [ih ws hxs]
    · exact absurd h (by simp)

theorem parseAll_total (l : List String)
    (h : ∀ e ∈ l, (pyInt e).isSome = true) : ∃ vs, parseAll l = some vs := by
  induction l with
  | nil => exact ⟨[], rfl⟩
  | cons x xs ih =>
    obtain ⟨v, hv⟩ := Option.isSome_iff_exists.mp (h x (by simp))
    obtain ⟨vs, hvs⟩ := ih (fun e he => h e (by simp [he]))
    exact ⟨v :: vs, by unfold parseAll; rw [hv, hvs]⟩

theorem splitCommaAux_ne_nil (cs : List Char) : ∀ acc, splitCommaAux cs acc ≠ [] := by
  induction cs with
  | nil => intro acc; simp [splitCommaAux]
  | cons c cs ih =>
    intro acc
    unfold splitCommaAux
    split
    · simp
    · exact ih _

theorem splitOnComma_ne_nil (s : String) : splitOnComma s ≠ [] := by
  unfold splitOnComma
  intro h
  exact splitCommaAux_ne_nil _ _ (List.map_eq_nil.mp h)

theorem parseIntList_ne_some_nil (s : String) : parseIntList s ≠ some [] := by
  intro h
  have hlen := parseAll_length _ _ h
  exact splitOnComma_ne_nil s (List.length_eq_zero.mp hlen.symm)

theorem sum_map_const (l : List α) (n : Nat) :
    (l.map (fun _ => n)).sum = l.length * n := by
  induction l with
  | nil => simp
  | cons a t ih =>
    rw [List.map_cons, List.sum_cons, ih, List.length_cons]
    ring

theorem config_run_passed_add_failed (n : Nat) (env : Nat → ModuleEnv)
    (start : Nat) :
    (config_run n env start).passed + (config_run n env start).failed = n := by
  unfold config_run
  dsimp only
  rw [length_filter_add_length_filter_not]
  simp

theorem dictGet_dictSet (d : List (String × ConfigEntry)) (k k' : String)
    (v : ConfigEntry) :
    dictGet (dictSet d k v) k' = if k = k' then some v else dictGet d k' := by
  induction d with
  | nil =>
    unfold dictSet dictGet
    by_cases h : k = k' <;> simp [h, dictGet]
  | cons kv rest ih =>
    unfold dictSet
    by_cases h : kv.1 = k
    · rw [if_pos h]
      unfold dictGet
      by_cases h' : k = k'
      · simp [h, h']
      · have hkv : ¬ kv.1 = k' := fun hc => h' (h.symm.trans hc)
        simp [h', hkv]
    · rw [if_neg h]
      unfold dictGet
      by_cases h' : kv.1 = k'
      · have hkk : ¬ k = k' := fun hc => h (hc ▸ h')
        simp [h', hkk]
      · simp [h', ih]

theorem dictGet_foldl_dictSet (l : List (String × ConfigEntry)) :
    ∀ (d : List (String × ConfigEntry)) (k : String),
    dictGet (l.foldl (fun d kv => dictSet d kv.1 kv.2) d) k =
      ((l.filter (fun kv => kv.1 = k)).getLast?).elim (dictGet d k)
        (fun kv => some kv.2) := by
  induction l with
  | nil => intro d k; rfl
  | cons kv t ih =>
    intro d k
    rw [List.foldl_cons, ih]
    by_cases h : kv.1 = k
    · rw [List.filter_cons_of_pos (by simp [h])]
      cases hl : (t.filter (fun kv => kv.1 = k)).getLast? with
      | some e =>
        rw [List.getLast?_cons, hl]
        rfl
      | none =>
        rw [List.getLast?_cons, hl]
        simp only [Option.getD_none, Option.elim_none, Option.elim_some]
        rw [dictGet_dictSet, if_pos h]
    · rw [List.filter_cons_of_neg (by simp [h])]
      cases hl : (t.filter (fun kv => kv.1 = k)).getLast? with
      | some e => rfl
      | none =>
        simp only [Option.elim_none]
        rw [dictGet_dictSet, if_neg h]

theorem dictGet_append (d₁ d₂ : List (String × ConfigEntry)) (k : String) :
    dictGet (d₁ ++ d₂) k =
      (dictGet d₁ k).elim (dictGet d₂ k) (fun v => some v) := by
  induction d₁ with
  | nil => rfl
  | cons kv rest ih =>
    rw [List.cons_append]
    have hshape : dictGet (kv :: (rest ++ d₂)) k =
        (if kv.1 = k then some kv.2 else dictGet (rest ++ d₂) k) := rfl
    have hshape2 : dictGet (kv :: rest) k =
        (if kv.1 = k then some kv.2 else dictGet rest k) := rfl
    rw [hshape, hshape2]
    by_cases h : kv.1 = k
    · rw [if_pos h, if_pos h]
      rfl
    · rw [if_neg h, if_neg h, ih]

theorem dictSet_of_fresh (d : List (String × ConfigEntry)) (k : String)
    (v : ConfigEntry) (h : dictGet d k = none) :
    dictSet d k v = d ++ [(k, v)] := by
  induction d with
  | nil => rfl
  | cons kv rest ih =>
    unfold dictGet at h
    unfold dictSet
    by_cases hk : kv.1 = k
    · rw [if_pos hk] at h
      cases h
    · rw [if_neg hk] at h
      rw [if_neg hk, ih h, List.cons_append]

theorem foldl_dictSet_nodup (l : List (String × ConfigEntry)) :
    ∀ d, (∀ kv ∈ l, dictGet d kv.1 = none) →
    (l.map (fun kv => kv.1)).Nodup →
    l.foldl (fun d kv => dictSet d kv.1 kv.2) d = d ++ l := by
  induction l with
  | nil => intro d _ _; simp
  | cons kv t ih =>
    intro d hfresh hnd
    rw [List.map_cons, List.nodup_cons] at hnd
    rw [List.foldl_cons, dictSet_of_fresh d _ _ (hfresh kv (by simp))]
    rw [ih (d ++ [(kv.1, kv.2)]) ?_ hnd.2]
    · simp
    · intro e he
      rw [dictGet_append, hfresh e (by simp [he])]
      have hne : ¬ kv.1 = e.1 := by
        intro hc
        exact hnd.1 (hc ▸ List.mem_map_of_mem (fun kv => kv.1) he)
      simp [dictGet, hne]

theorem map_enum_comp (l : List α) (f : α → β) :
    l.enum.map (fun iw => f iw.2) = l.map f := by
  have h : l.enum.map (fun iw => f iw.2) = (l.enum.map Prod.snd).map f := by
    rw [List.map_map]
    rfl
  rw [h, List.enum_map_snd]

theorem suite_iterEntries_eq (W P : List Int) (n : Nat) (env : Nat → ModuleEnv) :
    (suite_run W P n env).iterEntries =
      (pairsList W P).enum.map (fun iw =>
        (configKey iw.2.1 iw.2.2,
          { width := iw.2.1, pipe_stages := iw.2.2
            passed := (config_run n env (iw.1 * n)).passed
            failed := (config_run n env (iw.1 * n)).failed
            duration := (config_run n env (iw.1 * n)).duration : ConfigEntry })) := by
  unfold suite_run
  dsimp only
  rw [List.map_map]
  rfl

theorem suite_iterEntries_keys (W P : List Int) (n : Nat) (env : Nat → ModuleEnv) :
    (suite_run W P n env).iterEntries.map (fun kv => kv.1) =
      (pairsList W P).map (fun wp => configKey wp.1 wp.2) := by
  rw [suite_iterEntries_eq, List.map_map, ← map_enum_comp (pairsList W P) (fun wp => configKey wp.1 wp.2)]
  rfl

theorem suite_iterEntries_length (W P : List Int) (n : Nat) (env : Nat → ModuleEnv) :
    (suite_run W P n env).iterEntries.length = (pairsList W P).length := by
  rw [suite_iterEntries_eq]
  simp

theorem suite_config_results_eq (W P : List Int) (n : Nat) (env : Nat → ModuleEnv) :
    (suite_run W P n env).config_results =
      (suite_run W P n env).iterEntries.foldl (fun d kv => dictSet d kv.1 kv.2) [] := rfl

theorem suite_total_tests_eq (W P : List Int) (n : Nat) (env : Nat → ModuleEnv) :
    (suite_run W P n env).total_tests = (pairsList W P).length * n := by
  unfold suite_run
  dsimp only
  rw [sum_map_const]

theorem suite_total_passed_eq (W P : List Int) (n : Nat) (env : Nat → ModuleEnv) :
    (suite_run W P n env).total_passed =
      ((suite_run W P n env).iterEntries.map (fun kv => kv.2.passed)).sum := by
  unfold suite_run
  dsimp only
  simp only [List.map_map]
  rfl

theorem suite_total_failed_eq (W P : List Int) (n : Nat) (env : Nat → ModuleEnv) :
    (suite_run W P n env).total_failed =
      ((suite_run W P n env).iterEntries.map (fun kv => kv.2.failed)).sum := by
  unfold suite_run
  dsimp only
  simp only [List.map_map]
  rfl

theorem iterEntries_cell_total (W P : List Int) (n : Nat) (env : Nat → ModuleEnv) :
    ∀ kv ∈ (suite_run W P n env).iterEntries, kv.2.passed + kv.2.failed = n := by
  intro kv hkv
  rw [suite_iterEntries_eq] at hkv
  obtain ⟨iw, _, rfl⟩ := List.mem_map.mp hkv
  exact config_run_passed_add_failed n env (iw.1 * n)

theorem flatMap_length_const (l : List α) (f : α → List β) (L : Nat)
    (hf : ∀ a ∈ l, (f a).length = L) :
    (l.flatMap f).length = l.length * L := by
  induction l with
  | nil => simp
  | cons a t ih =>
    rw [List.flatMap_cons, List.length_append, hf a (by simp),
      ih (fun b hb => hf b (by simp [hb])), List.length_cons]
    ring

theorem pairsList_length (W P : List Int) :
    (pairsList W P).length = W.length * P.length := by
  unfold pairsList
  exact flatMap_length_const W _ P.length (fun a _ => by simp)

theorem flatMap_getElem_const (l : List α) (f : α → List β) (L : Nat)
    (hf : ∀ a ∈ l, (f a).length = L) :
    ∀ (i k : Nat), k < L →
      (l.flatMap f)[i * L + k]? = (l[i]?).bind (fun a => (f a)[k]?) := by
  induction l with
  | nil =>
    intro i k _
    simp
  | cons a t ih =>
    intro i k hk
    rw [List.flatMap_cons]
    cases i with
    | zero =>
      simp only [Nat.zero_mul, Nat.zero_add]
      rw [List.getElem?_append_left (by rw [hf a (by simp)]; exact hk)]
      simp
    | succ i =>
      have hidx : (i + 1) * L + k = (f a).length + (i * L + k) := by
        rw [hf a (by simp)]
        ring
      rw [hidx, List.getElem?_append_right (by omega)]
      rw [Nat.add_sub_cancel_left]
      rw [ih (fun b hb => hf b (by simp [hb])) i k hk]
      simp

/-! ## Claim theorems -/


/-- C3: when the compile step exits zero, the classification is `PASSED`
exactly when the combined log contains the literal `"TEST PASSED"` and
`FAILED` otherwise; the simulator's exit status is never consulted (the
outcome is identical for any two simulator exit codes). -/
theorem marker_classification (c : Int) (log : String) (t0 t1 t2 : ℚ)
    (hc : c = 0) :
    (∀ s : Int,
      ((run_test c s log t0 t1 t2).status = Status.PASSED ↔
        strContains log markerText = true) ∧
      (strContains log markerText = false →
        (run_test c s log t0 t1 t2).status = Status.FAILED)) ∧
    (∀ s₁ s₂ : Int,
      run_test c s₁ log t0 t1 t2 = run_test c s₂ log t0 t1 t2) := by
  subst hc
  constructor
  · intro s
    unfold run_test
    constructor
    · simp only [if_neg (by simp : ¬ (0 : Int) ≠ 0)]
      split <;> simp_all
    · intro hm
      simp only [if_neg (by simp : ¬ (0 : Int) ≠ 0)]
      rw [if_neg (by simp [hm])]
  · intro s₁ s₂
    unfold run_test
    rfl

/-- C3 witness: a concrete simulator run that exits 0 without the marker is
classified `FAILED`, and one whose log carries the marker is `PASSED`. -/
theorem marker_classification_witness :
    (run_test 0 0 "no marker here" 0 0 3).status = Status.FAILED ∧
    (run_test 0 7 "ok TEST PASSED ok" 0 0 3).status = Status.PASSED := by
  constructor
  · exact ((marker_classification 0 "no marker here" 0 0 3 rfl).1 0).2 (by decide)
  · exact ((marker_classification 0 "ok TEST PASSED ok" 0 0 3 rfl).1 7).1.mpr (by decide)

/-- C4: the final status is always one of `PASSED`, `FAILED`,
`COMPILE_FAILED` (never the initial `UNKNOWN`); a non-zero compile exit
yields `COMPILE_FAILED`, skips the execute step and records the duration
from just before the compile step (`t0`) to the early-return point (`t1`);
the execute step is attempted exactly when the compile step exits zero. -/
theorem module_status_cases (c s : Int) (log : String) (t0 t1 t2 : ℚ) :
    ((run_test c s log t0 t1 t2).status = Status.PASSED ∨
      (run_test c s log t0 t1 t2).status = Status.FAILED ∨
      (run_test c s log t0 t1 t2).status = Status.COMPILE_FAILED) ∧
    (c ≠ 0 →
      (run_test c s log t0 t1 t2).status = Status.COMPILE_FAILED ∧
      (run_test c s log t0 t1 t2).execAttempted = false ∧
      (run_test c s log t0 t1 t2).duration = t1 - t0) ∧
    ((run_test c s log t0 t1 t2).execAttempted = true ↔ c = 0) := by
  unfold run_test
  by_cases hc : c = 0
  · subst hc
    simp only [if_neg (by simp : ¬ (0 : Int) ≠ 0)]
    split <;> simp
  · simp [hc]

/-- C4 witness: at compile exit code 1 the status is `COMPILE_FAILED`, the
execute step is skipped, and the duration spans `t0` to `t1`. -/
theorem module_status_cases_witness :
    (run_test 1 0 "TEST PASSED" 2 5 9).status = Status.COMPILE_FAILED ∧
    (run_test 1 0 "TEST PASSED" 2 5 9).execAttempted = false ∧
    (run_test 1 0 "TEST PASSED" 2 5 9).duration = 5 - 2 := by
  exact (module_status_cases 1 0 "TEST PASSED" 2 5 9).2.1 (by decide)

/-- C5: for any configuration run with at least one module and any
behaviour of the external toolchain, all `total_modules` modules are run
(the id trace is exactly `[1, ..., total_modules]` and there is one outcome
per module, so there is no early termination), `passed + failed` equals
`total_modules` exactly, `failed` counts precisely the modules not
classified `PASSED`, and in particular every `COMPILE_FAILED` module is
counted in `failed`. -/
theorem config_counts (n : Nat) (env : Nat → ModuleEnv) (start : Nat)
    (hn : 1 ≤ n) :
    (config_run n env start).moduleIds = List.range' 1 n ∧
    (config_run n env start).moduleIds.length = n ∧
    (config_run n env start).outcomes.length = n ∧
    (config_run n env start).passed + (config_run n env start).failed = n ∧
    (config_run n env start).failed =
      ((config_run n env start).outcomes.filter
        (fun o => ! decide (o.status = Status.PASSED))).length ∧
    ((config_run n env start).outcomes.filter
        (fun o => decide (o.status = Status.COMPILE_FAILED))).length ≤
      (config_run n env start).failed := by
  have hsucc : ∀ o ∈ (config_run n env start).outcomes,
      o.success = decide (o.status = Status.PASSED) := by
    intro o ho
    simp only [config_run, List.mem_map] at ho
    obtain ⟨i, _, rfl⟩ := ho
    exact moduleRunEnv_success _
  refine ⟨rfl, by simp [config_run], by simp [config_run], ?_, ?_, ?_⟩
  · show ((config_run n env start).outcomes.filter (fun o => o.success)).length +
      ((config_run n env start).outcomes.filter (fun o => ! o.success)).length = n
    rw [length_filter_add_length_filter_not]
    simp [config_run]
  · show ((config_run n env start).outcomes.filter (fun o => ! o.success)).length = _
    congr 1
    exact List.filter_congr (fun o ho => by rw [hsucc o ho])
  · show _ ≤ ((config_run n env start).outcomes.filter (fun o => ! o.success)).length
    apply countP_le_countP
    intro o ho hcf
    rw [hsucc o ho]
    simp only [decide_eq_true_eq] at hcf ⊢
    simp [hcf]

/-- C5 witness: two modules where the first compile-fails and the second
passes give `passed + failed = 2` with the compile failure counted in
`failed`. -/
theorem config_counts_witness :
    (config_run 2 (fun i => if i = 0 then ⟨1, 0, "", 0⟩ else ⟨0, 0, "TEST PASSED", 0⟩) 0).passed +
      (config_run 2 (fun i => if i = 0 then ⟨1, 0, "", 0⟩ else ⟨0, 0, "TEST PASSED", 0⟩) 0).failed = 2 ∧
    (config_run 2 (fun i => if i = 0 then ⟨1, 0, "", 0⟩ else ⟨0, 0, "TEST PASSED", 0⟩) 0).moduleIds = [1, 2] := by
  refine ⟨(config_counts 2 _ 0 (by decide)).2.2.2.1, ?_⟩
  rw [(config_counts 2 (fun i => if i = 0 then ⟨1, 0, "", 0⟩ else ⟨0, 0, "TEST PASSED", 0⟩) 0 (by decide)).1]
  rfl

/-- C6 counterexample: starting from a filesystem whose `latest_results`
alias dangles (it names `"ghost"`, a directory that does not exist), a suite
run with working symlinks does NOT replace the alias: `os.path.exists`
follows the link and returns False, `os.remove` is skipped, `os.symlink`
raises `FileExistsError`, and the `except` clause only warns — the alias
still points at `"ghost"`, not at the run's output root, refuting
"replacing any previous alias regardless of the previous alias's state". -/
theorem latest_alias_dangling_counterexample :
    (suite_fs_run { dirs := [], latest := some "ghost" } true "A").1.latest =
      some "ghost" ∧
    (suite_fs_run { dirs := [], latest := some "ghost" } true "A").2.2.1 = true ∧
    (some "ghost" : Option String) ≠ some (logDirName "A") ∧
    (suite_fs_run { dirs := [], latest := some "ghost" } true "A").2.2.2 = 0 := by
  refine ⟨by decide, by decide, by decide, rfl⟩

/-- C6 (amended): for two consecutive suite runs with distinct timestamps,
from any filesystem state: the two runs use two distinct timestamped output
roots, and the exit status contributed by the alias code is 0 in both runs
whether or not the alias update succeeds; when symlink creation works and
the previous alias is absent or points at an existing directory, the first
run replaces it by its own root and after the second run the alias points at
the second root only; when the previous alias dangles (its target neither
exists nor is the new root) it is left unchanged and only a warning is
raised; when symlink creation itself fails, a warning is raised. -/
theorem latest_alias (fs : FS) (ok : Bool) (t₁ t₂ : String)
    (hne : t₁ ≠ t₂) :
    (suite_fs_run fs ok t₁).2.1 ≠
      (suite_fs_run (suite_fs_run fs ok t₁).1 ok t₂).2.1 ∧
    (suite_fs_run fs ok t₁).2.2.2 = 0 ∧
    (suite_fs_run (suite_fs_run fs ok t₁).1 ok t₂).2.2.2 = 0 ∧
    (ok = true → (∀ t, fs.latest = some t → t ∈ fs.dirs) →
      (suite_fs_run fs ok t₁).1.latest = some (logDirName t₁) ∧
      (suite_fs_run (suite_fs_run fs ok t₁).1 ok t₂).1.latest = some (logDirName t₂) ∧
      (suite_fs_run fs ok t₁).2.2.1 = false ∧
      (suite_fs_run (suite_fs_run fs ok t₁).1 ok t₂).2.2.1 = false) ∧
    (∀ t, fs.latest = some t → t ∉ fs.dirs → t ≠ logDirName t₁ →
      (suite_fs_run fs ok t₁).1.latest = some t ∧
      (suite_fs_run fs ok t₁).2.2.1 = true) ∧
    (ok = false → (suite_fs_run fs ok t₁).2.2.1 = true) := by
  refine ⟨?_, rfl, rfl, ?_, ?_, ?_⟩
  · intro hc
    exact hne (logDirName_injective t₁ t₂ hc)
  · rintro rfl hlive
    have h1 := suite_fs_run_ok fs t₁ hlive
    have hlive1 : ∀ s, (suite_fs_run fs true t₁).1.latest = some s →
        s ∈ (suite_fs_run fs true t₁).1.dirs := by
      intro s hs
      rw [h1.1] at hs
      cases hs
      rw [h1.2.2]
      split <;> simp_all
    have h2 := suite_fs_run_ok (suite_fs_run fs true t₁).1 t₂ hlive1
    exact ⟨h1.1, h2.1, h1.2.1, h2.2.1⟩
  · intro t ht hd hr
    exact suite_fs_run_dangling fs ok t₁ t ht hd hr
  · rintro rfl
    exact updateLatestLink_fail_warns _ _

/-- C6 witness: from an empty filesystem with working symlinks, two runs
with timestamps "A" and "B" give distinct roots and leave the alias on the
second root; and a run from a dangling alias (target `"nowhere"`) leaves the
alias untouched and warns. -/
theorem latest_alias_witness :
    (suite_fs_run { dirs := [], latest := none } true "A").2.1 ≠
      (suite_fs_run (suite_fs_run { dirs := [], latest := none } true "A").1 true "B").2.1 ∧
    (suite_fs_run (suite_fs_run { dirs := [], latest := none } true "A").1 true "B").1.latest =
      some (logDirName "B") ∧
    (suite_fs_run { dirs := [], latest := some "nowhere" } true "A").1.latest =
      some "nowhere" ∧
    (suite_fs_run { dirs := [], latest := some "nowhere" } true "A").2.2.1 = true := by
  have h := latest_alias { dirs := [], latest := none } true "A" "B" (by decide)
  have hdang := latest_alias { dirs := [], latest := some "nowhere" } true "A" "B" (by decide)
  have hd := hdang.2.2.2.2.1 "nowhere" rfl (by simp) (by decide)
  exact ⟨h.1, (h.2.2.2.1 rfl (fun t ht => by simp at ht)).2.1, hd.1, hd.2⟩

/-- C7: when a width or pipe-stages list contains an entry `int()` rejects,
or a parsed list is empty, or the module count is below 1, the program
exits with status 1, performs zero external toolchain invocations, and
builds no suite state (no configuration is run, no output directory
contents are produced). -/
theorem invalid_input_rejected (wArg pArg : String) (m : Int)
    (env : Nat → ModuleEnv)
    (h : (∃ e ∈ splitOnComma wArg, pyInt e = none) ∨
         (∃ e ∈ splitOnComma pArg, pyInt e = none) ∨
         parseIntList wArg = some [] ∨
         parseIntList pArg = some [] ∨
         m < 1) :
    main_model wArg pArg m env = (1, 0, none) := by
  have herr : ∃ r, validate_args wArg pArg m = .error r := by
    unfold validate_args
    rcases h with ⟨e, he, hp⟩ | ⟨e, he, hp⟩ | h | h | h
    · rw [show parseIntList wArg = none from parseAll_eq_none_of_mem _ e he hp]
      cases parseIntList pArg <;> exact ⟨_, rfl⟩
    · rw [show parseIntList pArg = none from parseAll_eq_none_of_mem _ e he hp]
      cases parseIntList wArg <;> exact ⟨_, rfl⟩
    · rw [h]
      cases parseIntList pArg <;> simp
    · rw [h]
      cases hw : parseIntList wArg with
      | none => exact ⟨_, rfl⟩
      | some ws =>
        by_cases hws : ws = [] <;> simp [hws]
    · cases hw : parseIntList wArg with
      | none => exact ⟨_, rfl⟩
      | some ws =>
        cases hp : parseIntList pArg with
        | none => exact ⟨_, rfl⟩
        | some ps =>
          by_cases hws : ws = [] <;> by_cases hps : ps = [] <;>
            simp [hws, hps, h]
  obtain ⟨r, hr⟩ := herr
  unfold main_model
  rw [hr]

/-- C7 witness: the spec's example `--widths 8,x` exits with status 1 and
zero toolchain invocations, whatever the external world would have done. -/
theorem invalid_input_rejected_witness :
    main_model "8,x" "2,3,4" 25 (fun _ => ⟨0, 0, "", 0⟩) = (1, 0, none) := by
  apply invalid_input_rejected
  left
  exact ⟨"x", by decide, by decide⟩

/-- C10: splitting an argument string on commas always yields at least one
entry; consequently the two dedicated empty-list diagnostics of `main` are
unreachable; every input whose entries all parse as integers (zero and
negative included) with a module count of at least 1 is accepted; and the
empty argument string is rejected through the `ValueError` path, not the
empty-list path. -/
theorem validation_envelope :
    (∀ s : String, splitOnComma s ≠ []) ∧
    (∀ (w p : String) (m : Int),
      validate_args w p m ≠ .error .emptyWidths ∧
      validate_args w p m ≠ .error .emptyPipes) ∧
    (∀ (w p : String) (m : Int),
      (∀ e ∈ splitOnComma w, (pyInt e).isSome = true) →
      (∀ e ∈ splitOnComma p, (pyInt e).isSome = true) →
      1 ≤ m →
      ∃ ws ps, validate_args w p m = .ok (ws, ps)) ∧
    (∀ (p : String) (m : Int), validate_args "" p m = .error .valueError) := by
  refine ⟨splitOnComma_ne_nil, ?_, ?_, ?_⟩
  · intro w p m
    unfold validate_args
    cases hw : parseIntList w with
    | none => exact ⟨by simp, by simp⟩
    | some ws =>
      cases hp : parseIntList p with
      | none => exact ⟨by simp, by simp⟩
      | some ps =>
        have hws : ws ≠ [] := fun hc => parseIntList_ne_some_nil w (hc ▸ hw)
        have hps : ps ≠ [] := fun hc => parseIntList_ne_some_nil p (hc ▸ hp)
        by_cases hm : m < 1 <;> simp [hws, hps, hm]
  · intro w p m hw hp hm
    obtain ⟨ws, hws⟩ := parseAll_total _ hw
    obtain ⟨ps, hps⟩ := parseAll_total _ hp
    have hws0 : ws ≠ [] := fun hc => parseIntList_ne_some_nil w (hc ▸ hws)
    have hps0 : ps ≠ [] := fun hc => parseIntList_ne_some_nil p (hc ▸ hps)
    refine ⟨ws, ps, ?_⟩
    unfold validate_args
    rw [show parseIntList w = some ws from hws,
      show parseIntList p = some ps from hps]
    have hm1 : ¬ m < 1 := by omega
    simp [hws0, hps0, hm1]
  · intro p m
    unfold validate_args
    rw [show parseIntList "" = none by decide]

/-- C10 witness: `"0,-5"` (zero and a negative width) is accepted, the
empty widths string is rejected via the `ValueError` diagnostic. -/
theorem validation_envelope_witness :
    (∃ ws ps, validate_args "0,-5" "2" 7 = .ok (ws, ps)) ∧
    validate_args "" "2" 7 = .error .valueError := by
  exact ⟨validation_envelope.2.2.1 "0,-5" "2" 7 (by decide) (by decide) (by decide),
    validation_envelope.2.2.2 "2" 7⟩

/-- C8: configurations execute in the nested-loop order — the q-th
configuration, for `q = i * |pipes| + j`, is `(widths[i], pipes[j])` (outer
loop over widths in input order, inner loop over pipe depths in input order,
duplicates kept since the count is exactly `|widths| × |pipes|`) — and
within each configuration the module runs are ids 1..module_count in
strictly ascending order: the t-th module event overall, for
`t = q * n + k`, is module `1 + k` of configuration q.  The whole run is a
single sequential trace. -/
theorem execution_order (widths pipes : List Int) (n : Nat)
    (env : Nat → ModuleEnv) (i j k : Nat)
    (hi : i < widths.length) (hj : j < pipes.length) (hk : k < n) :
    (suite_run widths pipes n env).pairsTrace.length =
      widths.length * pipes.length ∧
    (suite_run widths pipes n env).moduleTrace.length =
      widths.length * pipes.length * n ∧
    (suite_run widths pipes n env).pairsTrace[i * pipes.length + j]? =
      some (widths[i], pipes[j]) ∧
    (suite_run widths pipes n env).moduleTrace[(i * pipes.length + j) * n + k]? =
      some (widths[i], pipes[j], 1 + k) := by
  have hpt : (suite_run widths pipes n env).pairsTrace = pairsList widths pipes := rfl
  have hpair : (pairsList widths pipes)[i * pipes.length + j]? =
      some (widths[i], pipes[j]) := by
    unfold pairsList
    rw [flatMap_getElem_const widths _ pipes.length (fun a _ => by simp) i j hj,
      List.getElem?_eq_getElem hi]
    simp [List.getElem?_eq_getElem hj]
  have hmt : (suite_run widths pipes n env).moduleTrace =
      ((pairsList widths pipes).enum.map
        (fun iw => (iw.2, config_run n env (iw.1 * n)))).flatMap
        (fun x => x.2.moduleIds.map (fun m => (x.1.1, x.1.2, m))) := rfl
  have hblock : ∀ x ∈ (pairsList widths pipes).enum.map
      (fun iw => (iw.2, config_run n env (iw.1 * n))),
      (x.2.moduleIds.map (fun m : Nat => (x.1.1, x.1.2, m))).length = n := by
    intro x hx
    obtain ⟨iw, _, rfl⟩ := List.mem_map.mp hx
    simp [config_run]
  refine ⟨?_, ?_, ?_, ?_⟩
  · rw [hpt, pairsList_length]
  · rw [hmt, flatMap_length_const _ _ n hblock]
    simp [pairsList_length]
  · rw [hpt, hpair]
  · rw [hmt, flatMap_getElem_const _ _ n hblock (i * pipes.length + j) k hk,
      List.getElem?_map, List.getElem?_enum, hpair]
    simp [config_run, List.getElem?_range', hk]

/-- C8 witness: with widths `[8, 16]`, pipe depths `[2, 3]` and two
modules, the sixth module event overall (index 5 = (1·2+0)·2+1) is module 2
of configuration (16, 2). -/
theorem execution_order_witness :
    (suite_run [8, 16] [2, 3] 2 (fun _ => ⟨0, 0, "", 0⟩)).moduleTrace[5]? =
      some (16, 2, 2) := by
  have h := execution_order [8, 16] [2, 3] 2 (fun _ => ⟨0, 0, "", 0⟩) 1 0 1
    (by decide) (by decide) (by decide)
  exact h.2.2.2

/-- C2 counterexample: with the duplicated width list `[8, 8]`, one pipe
depth and one module per configuration, two configurations are counted into
`total_tests` but the `config_results` mapping keeps a single entry (the
later iteration overwrote the earlier one under the shared key), so
`total_tests = 2` while the sum of `passed + failed` over the mapping is 1:
the claimed equality, and the claimed one-key-per-requested-pair property,
fail on this run. -/
theorem totals_duplicate_counterexample :
    (suite_run [8, 8] [2] 1 (fun _ => ⟨1, 0, "", 0⟩)).total_tests = 2 ∧
    (((suite_run [8, 8] [2] 1 (fun _ => ⟨1, 0, "", 0⟩)).config_results.map
      (fun kv => kv.2.passed + kv.2.failed)).sum = 1) ∧
    (suite_run [8, 8] [2] 1 (fun _ => ⟨1, 0, "", 0⟩)).config_results.length = 1 ∧
    (suite_run [8, 8] [2] 1 (fun _ => ⟨1, 0, "", 0⟩)).pairsTrace.length = 2 ∧
    (2 : Nat) ≠ 1 := by
  refine ⟨by decide, by decide, by decide, by decide, by decide⟩

/-- C2 (amended): when no requested (width, pipeline_depth) pair occurs
twice — stated as: the keys derived from the cartesian product are pairwise
distinct — the `config_results` mapping keeps every iteration's entry, and
`total_tests` equals the sum of `passed + failed` over the mapping, which
equals `module_count × |widths| × |pipe_stages|`; `total_passed` and
`total_failed` are likewise the sums of the per-configuration counters. -/
theorem suite_totals_nodup (widths pipes : List Int) (n : Nat)
    (env : Nat → ModuleEnv)
    (hkeys : ((pairsList widths pipes).map (fun wp => configKey wp.1 wp.2)).Nodup) :
    (suite_run widths pipes n env).config_results =
      (suite_run widths pipes n env).iterEntries ∧
    (suite_run widths pipes n env).total_tests =
      (((suite_run widths pipes n env).config_results.map
        (fun kv => kv.2.passed + kv.2.failed)).sum) ∧
    (suite_run widths pipes n env).total_passed =
      (((suite_run widths pipes n env).config_results.map
        (fun kv => kv.2.passed)).sum) ∧
    (suite_run widths pipes n env).total_failed =
      (((suite_run widths pipes n env).config_results.map
        (fun kv => kv.2.failed)).sum) ∧
    (suite_run widths pipes n env).total_tests =
      n * widths.length * pipes.length := by
  have hkeys2 : (((suite_run widths pipes n env).iterEntries.map
      (fun kv => kv.1)).Nodup) := by
    rw [suite_iterEntries_keys]
    exact hkeys
  have hres : (suite_run widths pipes n env).config_results =
      (suite_run widths pipes n env).iterEntries := by
    rw [suite_config_results_eq,
      foldl_dictSet_nodup _ [] (fun kv _ => rfl) hkeys2]
    simp
  have hcell := iterEntries_cell_total widths pipes n env
  have hsum : (((suite_run widths pipes n env).iterEntries.map
      (fun kv => kv.2.passed + kv.2.failed)).sum) =
      (pairsList widths pipes).length * n := by
    rw [List.map_congr_left
        (fun kv hkv => by simpa using hcell kv hkv : ∀ kv ∈ (suite_run widths pipes n env).iterEntries, (fun kv => kv.2.passed + kv.2.failed) kv = (fun _ => n) kv),
      sum_map_const, suite_iterEntries_length]
  refine ⟨hres, ?_, ?_, ?_, ?_⟩
  · rw [hres, hsum, suite_total_tests_eq]
  · rw [hres, suite_total_passed_eq]
  · rw [hres, suite_total_failed_eq]
  · rw [suite_total_tests_eq, pairsList_length]
    ring

/-- C2 witness: four distinct configurations, one module each, all passing:
the totals match the mapping sums and the product formula. -/
theorem suite_totals_nodup_witness :
    (suite_run [8, 16] [2, 3] 1 (fun _ => ⟨0, 0, "TEST PASSED", 0⟩)).total_tests =
      1 * 2 * 2 := by
  have h := suite_totals_nodup [8, 16] [2, 3] 1 (fun _ => ⟨0, 0, "TEST PASSED", 0⟩)
    (by decide)
  simpa using h.2.2.2.2

/-- C9: when some (width, pipeline_depth) pair occurs at two positions
`i < j` of the cartesian product, every occurrence is still executed and
counted (the execution trace covers the whole product, there is one
iteration entry per occurrence, and the three totals sum over all
occurrences), but both occurrences use identical per-module log paths and
report path (so the later run overwrites the earlier one's files), and the
`config_results` mapping retains, for every key, only the entry of the last
iteration that produced that key. -/
theorem duplicate_pair_overwrite (widths pipes : List Int) (n : Nat)
    (env : Nat → ModuleEnv) (i j : Nat) (hij : i < j)
    (hj : j < (pairsList widths pipes).length)
    (hdup : (pairsList widths pipes).get ⟨i, Nat.lt_trans hij hj⟩ =
      (pairsList widths pipes).get ⟨j, hj⟩) :
    (suite_run widths pipes n env).pairsTrace = pairsList widths pipes ∧
    (suite_run widths pipes n env).iterEntries.length =
      (pairsList widths pipes).length ∧
    (suite_run widths pipes n env).total_tests =
      (pairsList widths pipes).length * n ∧
    (suite_run widths pipes n env).total_passed =
      (((suite_run widths pipes n env).iterEntries.map
        (fun kv => kv.2.passed)).sum) ∧
    (suite_run widths pipes n env).total_failed =
      (((suite_run widths pipes n env).iterEntries.map
        (fun kv => kv.2.failed)).sum) ∧
    (∀ (d : String) (id : Nat),
      module_log_file d ((pairsList widths pipes).get ⟨i, Nat.lt_trans hij hj⟩).1
          ((pairsList widths pipes).get ⟨i, Nat.lt_trans hij hj⟩).2 id =
        module_log_file d ((pairsList widths pipes).get ⟨j, hj⟩).1
          ((pairsList widths pipes).get ⟨j, hj⟩).2 id) ∧
    (∀ d : String,
      report_file d ((pairsList widths pipes).get ⟨i, Nat.lt_trans hij hj⟩).1
          ((pairsList widths pipes).get ⟨i, Nat.lt_trans hij hj⟩).2 =
        report_file d ((pairsList widths pipes).get ⟨j, hj⟩).1
          ((pairsList widths pipes).get ⟨j, hj⟩).2) ∧
    (∀ k : String,
      dictGet (suite_run widths pipes n env).config_results k =
        (((suite_run widths pipes n env).iterEntries.filter
          (fun kv => kv.1 = k)).getLast?).map (fun kv => kv.2)) := by
  refine ⟨rfl, suite_iterEntries_length widths pipes n env,
    suite_total_tests_eq widths pipes n env,
    suite_total_passed_eq widths pipes n env,
    suite_total_failed_eq widths pipes n env,
    ?_, ?_, ?_⟩
  · intro d id
    rw [hdup]
  · intro d
    rw [hdup]
  · intro k
    rw [suite_config_results_eq, dictGet_foldl_dictSet]
    cases hl : ((suite_run widths pipes n env).iterEntries.filter
        (fun kv => kv.1 = k)).getLast? with
    | none => simp [dictGet]
    | some e => simp

/-- C9 witness: widths `[8, 8]` with one pipe depth and one module, where
the first occurrence compile-fails and the second passes: both occurrences
are counted (`total_tests = 2`) but the mapping holds only the second
occurrence's entry (1 passed, 0 failed) under the shared key `"8_2"`. -/
theorem duplicate_pair_overwrite_witness :
    (suite_run [8, 8] [2] 1
      (fun idx => if idx = 0 then ⟨1, 0, "", 0⟩ else ⟨0, 0, "TEST PASSED", 0⟩)).total_tests = 2 ∧
    (dictGet (suite_run [8, 8] [2] 1
      (fun idx => if idx = 0 then ⟨1, 0, "", 0⟩ else ⟨0, 0, "TEST PASSED", 0⟩)).config_results "8_2").map
        (fun e => (e.width, e.pipe_stages, e.passed, e.failed)) =
      some (8, 2, 1, 0) := by
  have h := duplicate_pair_overwrite [8, 8] [2] 1
    (fun idx => if idx = 0 then ⟨1, 0, "", 0⟩ else ⟨0, 0, "TEST PASSED", 0⟩)
    0 1 (by decide) (by decide) (by decide)
  refine ⟨?_, ?_⟩
  · rw [h.2.2.1]
    rfl
  · rw [h.2.2.2.2.2.2.2 "8_2"]
    decide

/-- The heat-map pass rate is the floor of the rational
`100 × passed / (passed + failed)` whenever the denominator is nonzero. -/
theorem heat_pass_rate_floor (p f : Nat) (h : 0 < p + f) :
    heat_pass_rate p f = ⌊(100 * (p : ℚ)) / ((p : ℚ) + f)⌋₊ := by
  unfold heat_pass_rate
  rw [if_pos h]
  have h1 : (100 * (p : ℚ)) = ((p * 100 : ℕ) : ℚ) := by
    push_cast
    ring
  have h2 : ((p : ℚ) + f) = ((p + f : ℕ) : ℚ) := by
    push_cast
    ring
  rw [h1, h2, Nat.floor_div_eq_div]

/-- C1 counterexample: a configuration present in the results with
`passed = 0` and `failed = 0` renders as `"0%"`, not as the claimed
"not applicable" sentinel (the code's `"N/A"` cell appears only for pairs
absent from the mapping). -/
theorem heat_cell_zero_total_counterexample :
    heat_cell [("0_0", (⟨0, 0, 0, 0, 0⟩ : ConfigEntry))] 0 0 = "0%" ∧
    ("0%" : String) ≠ "N/A" := by
  exact ⟨by decide, by decide⟩

/-- C1 (amended): for a configuration present in the results mapping the
cell shows `floor(100 × passed / (passed + failed))` followed by `"%"` when
the denominator is nonzero (so 0 passed / 10 failed reads 0 and 10 passed /
0 failed reads 100); when `passed + failed = 0` the division is not
performed and the cell reads `"0%"` (not a "not applicable" sentinel); the
`"N/A"` sentinel is shown exactly for configurations absent from the
mapping. -/
theorem heat_cell_spec (d : List (String × ConfigEntry)) (w p : Int) :
    (∀ e, dictGet d (configKey w p) = some e →
      heat_cell d w p = toString (heat_pass_rate e.passed e.failed) ++ "%" ∧
      (0 < e.passed + e.failed →
        heat_pass_rate e.passed e.failed =
          ⌊(100 * (e.passed : ℚ)) / ((e.passed : ℚ) + e.failed)⌋₊) ∧
      (e.passed + e.failed = 0 → heat_cell d w p = "0%")) ∧
    (dictGet d (configKey w p) = none → heat_cell d w p = "N/A") := by
  constructor
  · intro e he
    have hc : heat_cell d w p = toString (heat_pass_rate e.passed e.failed) ++ "%" := by
      unfold heat_cell
      rw [he]
    refine ⟨hc, fun h0 => heat_pass_rate_floor e.passed e.failed h0, fun h0 => ?_⟩
    rw [hc]
    have hz : heat_pass_rate e.passed e.failed = 0 := by
      unfold heat_pass_rate
      rw [h0]
      simp
    rw [hz]
    decide
  · intro he
    unfold heat_cell
    rw [he]

/-- C1 witness: 0 passed / 10 failed reads `"0%"`, 10 passed / 0 failed
reads `"100%"`, and a pair absent from the mapping reads `"N/A"`. -/
theorem heat_cell_spec_witness :
    heat_cell [("8_2", (⟨8, 2, 0, 10, 0⟩ : ConfigEntry))] 8 2 = "0%" ∧
    heat_cell [("8_2", (⟨8, 2, 10, 0, 0⟩ : ConfigEntry))] 8 2 = "100%" ∧
    heat_cell [] 8 2 = "N/A" := by
  refine ⟨?_, ?_, ?_⟩
  · rw [((heat_cell_spec [("8_2", (⟨8, 2, 0, 10, 0⟩ : ConfigEntry))] 8 2).1
      (⟨8, 2, 0, 10, 0⟩ : ConfigEntry) (by decide)).1]
    decide
  · rw [((heat_cell_spec [("8_2", (⟨8, 2, 10, 0, 0⟩ : ConfigEntry))] 8 2).1
      (⟨8, 2, 10, 0, 0⟩ : ConfigEntry) (by decide)).1]
    decide
  · exact (heat_cell_spec [] 8 2).2 (by decide)

end RtlPipe
